import Mathlib

/-!
Verification development for the Multi-Agent Legal Contract Analyzer.

This file gives a shallow embedding, in Lean 4, of the two core subsystems of
the repository: the clause decomposition / risk-merge engine
(`src/legaldoc/agents/risk_detector_agent.py`) and the provider invocation
layer (`src/legaldoc/utils/llm_provider_manager.py`), together with theorems
settling the specification claims about them.

Python strings are modeled as `List Char`; Python floats that are only
copied and compared (risk scores, confidences) are modeled as `ℚ`;
Python dicts with a fixed key set are modeled as structures; a Python
function that can raise is modeled with `Option` / `Except`.
-/

namespace LegalDoc

/-- Python strings are modeled as lists of characters. -/
abbrev Str := List Char

/-- The ASCII fragment of Python's whitespace class (used by `\s` and by
`str.strip()`): space, tab, newline, carriage return, vertical tab, form feed. -/
def isPySpace (c : Char) : Bool :=
  c == ' ' || c == '\t' || c == '\n' || c == '\r' || c == '\x0b' || c == '\x0c'

/-- The ASCII fragment of Python's `\d` digit class. -/
def isPyDigit (c : Char) : Bool :=
  c == '0' || c == '1' || c == '2' || c == '3' || c == '4' ||
  c == '5' || c == '6' || c == '7' || c == '8' || c == '9'

/-- Python `str.strip()`: remove leading and trailing whitespace. -/
def pstrip (s : Str) : Str :=
  ((s.dropWhile isPySpace).reverse.dropWhile isPySpace).reverse

/-- A clause dictionary as produced by the splitter and consumed by the risk
detector (`clause_id`, `clause_number`, `clause_title`, `clause_text`,
`clause_type`, and the back-reference `_parent_clause_id` added for
sub-clauses; absent for top-level clauses, modeled as `none`). -/
structure ClauseDict where
  clause_id : Str
  clause_number : Str
  clause_title : Str
  clause_text : Str
  clause_type : Str
  parent_clause_id : Option Str
deriving DecidableEq

/-- The `IdentifiedRisk` schema of `utils/schemas.py`. -/
structure IdentifiedRisk where
  risk_type : Str
  description : Str
  severity : Str
  impact : Str
deriving DecidableEq

/-- The `ClassificationResult` schema of `utils/schemas.py` (the validated
structured output of the classifier's model call). -/
structure ClassificationResult where
  clause_id : Str
  category : Str
  subcategory : Option Str
  confidence : ℚ
  reasoning : Str
deriving DecidableEq

/-- The classification dictionary returned by `ClauseClassifierAgent`:
the `model_dump()` of a `ClassificationResult` plus the `original_clause`
key added by `classify_clause` (also present in the fallback dict). -/
structure ClassificationDict where
  clause_id : Str
  category : Str
  subcategory : Option Str
  confidence : ℚ
  reasoning : Str
  original_clause : ClauseDict
deriving DecidableEq

/-- The `RiskAssessmentResult` schema of `utils/schemas.py` (the validated
structured output of the risk detector's model call). -/
structure RiskAssessmentResult where
  clause_id : Str
  risk_level : Str
  risk_score : ℚ
  identified_risks : List IdentifiedRisk
  recommendations : List Str
  overall_assessment : Str
deriving DecidableEq

/-- The risk dictionary returned by `RiskDetectorAgent.detect_risks` for one
(sub-)clause: the `model_dump()` of a `RiskAssessmentResult` plus the
`original_clause` and `classification` context keys.  The fallback dict of
`_create_fallback_risk_assessment` carries no `classification` key; since the
code only reads that key with `.get`, the missing key is modeled as `none`. -/
structure SubRisk where
  clause_id : Str
  risk_level : Str
  risk_score : ℚ
  identified_risks : List IdentifiedRisk
  recommendations : List Str
  overall_assessment : Str
  original_clause : ClauseDict
  classification : Option ClassificationDict
deriving DecidableEq

/-- The parent-level dictionary built by `_merge_subclause_risks`, which also
keeps the full list of sub-clause results under `sub_clause_results`. -/
structure MergedRisk where
  clause_id : Str
  risk_level : Str
  risk_score : ℚ
  identified_risks : List IdentifiedRisk
  recommendations : List Str
  overall_assessment : Str
  original_clause : ClauseDict
  classification : Option ClassificationDict
  sub_clause_results : List SubRisk
deriving DecidableEq

/-- The severity table `risk_order = {"HIGH": 4, "MEDIUM": 3, "LOW": 2,
"NONE": 1}` read through `.get(level, 0)`: any unrecognized level maps to 0,
strictly below `"NONE"`. -/
def risk_order (s : Str) : Nat :=
  if s = "HIGH".toList then 4
  else if s = "MEDIUM".toList then 3
  else if s = "LOW".toList then 2
  else if s = "NONE".toList then 1
  else 0

/-- Insertion step of a stable descending sort on the `risk_order` key: the
inserted element `x` (earlier in the input) is placed before every element of
strictly smaller key and before later elements of equal key. -/
def insertDesc (x : SubRisk) : List SubRisk → List SubRisk
  | [] => [x]
  | y :: ys =>
    if risk_order y.risk_level ≤ risk_order x.risk_level then x :: y :: ys
    else y :: insertDesc x ys

/-- Model of `sorted(sub_results, key=lambda r: risk_order.get(...),
reverse=True)`.  Python's `sorted` with `reverse=True` is a stable descending
sort: elements with equal keys keep their input order.  A stable descending
sort is unique, so it equals this insertion sort. -/
def sortByRiskDesc : List SubRisk → List SubRisk
  | [] => []
  | x :: xs => insertDesc x (sortByRiskDesc xs)

/-- Specification-side selector: the sub-result of maximal `risk_order`,
ties broken by first occurrence in the input order.  Proved below to be the
head of the stable descending sort, i.e. exactly `sorted_results[0]`. -/
def selectMaxFirst : List SubRisk → Option SubRisk
  | [] => none
  | r :: rs =>
    match selectMaxFirst rs with
    | none => some r
    | some m => if risk_order r.risk_level < risk_order m.risk_level then some m else some r

/-- Model of `list(dict.fromkeys(lst))`: keep the first occurrence of every
string, in order; `seen` accumulates the keys already emitted. -/
def dedupKeys (seen : List Str) : List Str → List Str
  | [] => []
  | x :: xs => if x ∈ seen then dedupKeys seen xs else x :: dedupKeys (seen ++ [x]) xs

/-- Model of `RiskDetectorAgent._merge_subclause_risks`.  The source indexes
`sorted_results[0]`, which raises `IndexError` on an empty input list; that
failure is modeled as `none`. -/
def merge_subclause_risks (parent_clause : ClauseDict) (sub_results : List SubRisk) :
    Option MergedRisk :=
  let sorted_results := sortByRiskDesc sub_results
  match sorted_results with
  | [] => none
  | highest :: _ =>
    let all_risks := (sub_results.map (fun r => r.identified_risks)).flatten
    let all_recommendations := (sub_results.map (fun r => r.recommendations)).flatten
    let unique_recs := dedupKeys [] all_recommendations
    some
      { clause_id := parent_clause.clause_id
        risk_level := highest.risk_level
        risk_score := highest.risk_score
        identified_risks := all_risks
        recommendations := unique_recs
        overall_assessment := highest.overall_assessment
        original_clause := parent_clause
        classification := match sub_results with
          | [] => none
          | r :: _ => r.classification
        sub_clause_results := sub_results }

/-! ### Clause decomposition (`RiskDetectorAgent._split_into_subclauses`)

The source scans `clause_text` with `re.finditer` for the pattern
`(?:^|\n)\s*({clause_num}\.\d+)\s` (with `clause_num` escaped, hence a
literal, and without `re.MULTILINE`, so `^` only matches at offset 0).
The scan below models the engine's leftmost, non-overlapping match
semantics: attempts are made at offsets 0, 1, 2, …; on success the scan
resumes at the end of the match.  Within one attempt `\s*` is greedy with
backtracking (longest whitespace run first) and `\d+` is greedy; since a
digit is never whitespace, the digit run is always maximal and must be
followed by one whitespace character. -/

/-- A regex match object: overall start (`match.start()`), start of group 1,
the text of group 1 (`match.group(1)`), and the end of the match. -/
structure MatchInfo where
  mstart : Nat
  gstart : Nat
  group : Str
  mend : Nat
deriving DecidableEq

/-- Length of the maximal whitespace run of `text` starting at offset `q`. -/
def wsRun (text : Str) (q : Nat) : Nat :=
  ((text.drop q).takeWhile isPySpace).length

/-- Length of the maximal digit run of `text` starting at offset `j`. -/
def digitRun (text : Str) (j : Nat) : Nat :=
  ((text.drop j).takeWhile isPyDigit).length

/-- Match the group-and-tail part of the pattern, `({num}\.\d+)\s`, with the
group starting at offset `j`: the literal `num`, a dot, a maximal nonempty
digit run, then one whitespace character.  On success, returns the group text
and the end of the whole match (one past the trailing whitespace). -/
def matchCore (num text : Str) (j : Nat) : Option (Str × Nat) :=
  if num.isPrefixOf (text.drop j) then
    let dotPos := j + num.length
    match text.get? dotPos with
    | some c =>
      if c = '.' then
        let d := digitRun text (dotPos + 1)
        if 0 < d then
          match text.get? (dotPos + 1 + d) with
          | some w =>
            if isPySpace w then
              some (num ++ '.' :: (text.drop (dotPos + 1)).take d, dotPos + 1 + d + 1)
            else none
          | none => none
        else none
      else none
    | none => none
  else none

/-- Greedy `\s*` with backtracking: try to start the group at offsets
`q + k`, `q + k - 1`, …, `q` (longest whitespace prefix first) and return the
first success as `(group start, group text, match end)`. -/
def tryStops (num text : Str) (q : Nat) : Nat → Option (Nat × Str × Nat)
  | 0 =>
    match matchCore num text q with
    | some (g, e) => some (q, g, e)
    | none => none
  | k + 1 =>
    match matchCore num text (q + (k + 1)) with
    | some (g, e) => some (q + (k + 1), g, e)
    | none => tryStops num text q k

/-- Attempt the pattern `(?:^|\n)\s*({num}\.\d+)\s` at offset `p`.  Without
`re.MULTILINE`, `^` matches only at offset 0; at any other offset the attempt
requires a literal newline at `p` (consumed by the match).  At offset 0 the
`\n` alternative is subsumed by the `^` branch, whose greedy `\s*` already
covers every whitespace prefix including that newline. -/
def tryMatchAt (num text : Str) (p : Nat) : Option MatchInfo :=
  if p = 0 then
    match tryStops num text 0 (wsRun text 0) with
    | some (g, grp, e) => some ⟨0, g, grp, e⟩
    | none => none
  else
    match text.get? p with
    | some c =>
      if c = '\n' then
        match tryStops num text (p + 1) (wsRun text (p + 1)) with
        | some (g, grp, e) => some ⟨p, g, grp, e⟩
        | none => none
      else none
    | none => none

/-- The `re.finditer` scan: attempt at offset `p`, emit the match and resume
at its end, otherwise move to `p + 1`; stop past the end of the text.  Every
emitted match has positive width, so `text.length + 1` steps of fuel cover
the whole scan. -/
def findIterAux (num text : Str) : Nat → Nat → List MatchInfo
  | _, 0 => []
  | p, fuel + 1 =>
    if text.length < p then []
    else
      match tryMatchAt num text p with
      | some m => m :: findIterAux num text m.mend fuel
      | none => findIterAux num text (p + 1) fuel

/-- All non-overlapping matches of `(?:^|\n)\s*({num}\.\d+)\s` in `text`, in
order of appearance: `list(re.finditer(pattern, text))`. -/
def finditer (num text : Str) : List MatchInfo :=
  findIterAux num text 0 (text.length + 1)

/-- Span start for one marker (source lines 180–183): the match start,
advanced past a single leading newline. -/
def adjStart (text : Str) (m : MatchInfo) : Nat :=
  match text.get? m.mstart with
  | some c => if c = '\n' then m.mstart + 1 else m.mstart
  | none => m.mstart

/-- Span end for one marker (source lines 185–189): the start of the next
marker, or the end of the text for the last marker. -/
def spanEnd (text : Str) (rest : List MatchInfo) : Nat :=
  match rest with
  | [] => text.length
  | m2 :: _ => m2.mstart

/-- The raw text span of the parent clause attributed to each marker:
`text[start:end]` with `start`/`end` as above. -/
def markerSpans (text : Str) : List MatchInfo → List Str
  | [] => []
  | m :: rest => ((text.take (spanEnd text rest)).drop (adjStart text m)) :: markerSpans text rest

/-- The intro text (source line 176): `text[:markers[0].start()].strip()`,
the stripped text preceding the first marker. -/
def introOf (text : Str) (markers : List MatchInfo) : Str :=
  pstrip (text.take (match markers with
    | [] => 0
    | m :: _ => m.mstart))

/-- Source lines 195–196: prepend the introductory context, separated by a
blank line, when it is non-empty. -/
def withIntro (intro sub_text : Str) : Str :=
  if intro = [] then sub_text else intro ++ "\n\n".toList ++ sub_text

/-- Statement-side inverse of `withIntro`: remove the shared intro (and its
blank-line separator) from a sub-clause's effective text. -/
def dropIntro (intro s : Str) : Str :=
  s.drop (if intro = [] then 0 else intro.length + 2)

/-- Sub-number index (source line 199): the part of `sub_number` after its
last dot, or the decimal rendering of `idx + 1` when it has no dot. -/
def subIdxOf (sub_number : Str) (idx : Nat) : Str :=
  if '.' ∈ sub_number then ((sub_number.reverse.takeWhile (fun c => c != '.')).reverse)
  else (Nat.repr (idx + 1)).toList

/-- The sub-clause dictionary built at source lines 200–207. -/
def mkSubClause (c : ClauseDict) (sub_number sub_text : Str) (idx : Nat) : ClauseDict :=
  { clause_id := c.clause_id ++ "_sub_".toList ++ subIdxOf sub_number idx
    clause_number := sub_number
    clause_title := c.clause_title ++ " (§".toList ++ sub_number ++ ")".toList
    clause_text := sub_text
    clause_type := c.clause_type
    parent_clause_id := some c.clause_id }

/-- The loop at source lines 178–207: for each marker, take the stripped span;
skip it if empty; otherwise prepend the intro (when non-empty, separated by a
blank line) and emit a sub-clause dictionary. -/
def buildSubs (c : ClauseDict) (intro text : Str) : Nat → List MatchInfo → List ClauseDict
  | _, [] => []
  | idx, m :: rest =>
    let sub_text := pstrip ((text.take (spanEnd text rest)).drop (adjStart text m))
    if sub_text = [] then buildSubs c intro text (idx + 1) rest
    else
      mkSubClause c m.group (withIntro intro sub_text) idx ::
        buildSubs c intro text (idx + 1) rest

/-- Model of `RiskDetectorAgent._split_into_subclauses`. -/
def split_into_subclauses (clause : ClauseDict) : List ClauseDict :=
  let text := clause.clause_text
  let clause_num := clause.clause_number
  if clause_num = [] ∨ text = [] then [clause]
  else
    let markers := finditer clause_num text
    if markers.length < 2 then [clause]
    else
      let intro_text := introOf text markers
      let subclauses := buildSubs clause intro_text text 0 markers
      if subclauses = [] then [clause] else subclauses

/-! ### Per-clause detection, classification, and their fallbacks

`detect_risks` / `classify_clause` wrap one structured model call in a
`try/except` that substitutes a conservative fallback dictionary on any
raised error.  The model call (together with prompt loading and formatting,
which the same `try` covers) is abstracted as an oracle of type
`Except Str _`: `.ok` is a validated structured result, `.error` is any
raised exception, carrying its message. -/

/-- Model of `RiskDetectorAgent._create_fallback_risk_assessment`
(source lines 257–288). -/
def create_fallback_risk_assessment (clause : ClauseDict) : SubRisk :=
  { clause_id := clause.clause_id
    risk_level := "MEDIUM".toList
    risk_score := 1/2
    identified_risks :=
      [{ risk_type := "Analysis Failed".toList
         description := "Risk analysis could not be completed".toList
         severity := "MEDIUM".toList
         impact := "Unable to assess potential impact".toList }]
    recommendations := ["Manual review recommended due to analysis failure".toList]
    overall_assessment := "Risk assessment failed - manual review required".toList
    original_clause := clause
    classification := none }

/-- Model of `RiskDetectorAgent.detect_risks`: on a successful call, the
validated result dictionary plus `original_clause` and `classification`
context; on any raised error, the conservative fallback. -/
def detect_risks (clause : ClauseDict) (classification : Option ClassificationDict)
    (llm : Except Str RiskAssessmentResult) : SubRisk :=
  match llm with
  | .ok r =>
    { clause_id := r.clause_id
      risk_level := r.risk_level
      risk_score := r.risk_score
      identified_risks := r.identified_risks
      recommendations := r.recommendations
      overall_assessment := r.overall_assessment
      original_clause := clause
      classification := classification }
  | .error _ => create_fallback_risk_assessment clause

/-- Model of `ClauseClassifierAgent._create_fallback_classification`. -/
def create_fallback_classification (clause : ClauseDict) : ClassificationDict :=
  { clause_id := clause.clause_id
    category := "Miscellaneous".toList
    confidence := 0
    reasoning := "Classification failed - assigned to miscellaneous category".toList
    subcategory := some "Unknown".toList
    original_clause := clause }

/-- Model of `ClauseClassifierAgent.classify_clause`. -/
def classify_clause (clause : ClauseDict)
    (llm : Except Str ClassificationResult) : ClassificationDict :=
  match llm with
  | .ok r =>
    { clause_id := r.clause_id
      category := r.category
      subcategory := r.subcategory
      confidence := r.confidence
      reasoning := r.reasoning
      original_clause := clause }
  | .error _ => create_fallback_classification clause

/-- Model of `ClauseClassifierAgent.classify_multiple_clauses`. -/
def classify_multiple_clauses (clauses : List ClauseDict)
    (llm : ClauseDict → Except Str ClassificationResult) : List ClassificationDict :=
  clauses.map (fun clause => classify_clause clause (llm clause))

/-- One entry of the list returned by `detect_risks_multiple_clauses`: either
the plain `detect_risks` dictionary of an undecomposed clause, or the merged
dictionary of a decomposed one (which carries `sub_clause_results`). -/
inductive PipelineRisk where
  | single (r : SubRisk)
  | merged (m : MergedRisk)
deriving DecidableEq

/-- The `risk_level` field of either kind of result dictionary. -/
def PipelineRisk.risk_level : PipelineRisk → Str
  | .single r => r.risk_level
  | .merged m => m.risk_level

/-- The `risk_score` field of either kind of result dictionary. -/
def PipelineRisk.risk_score : PipelineRisk → ℚ
  | .single r => r.risk_score
  | .merged m => m.risk_score

/-- The loop of `RiskDetectorAgent.detect_risks_multiple_clauses` (source
lines 115–136), from clause index `i` on.  `classifications.getD i none`
models `classifications[i] if i < len(classifications) else None` (and the
`None` default, which behaves as an all-`None` list).  An `IndexError`
escaping `_merge_subclause_risks` would abort the whole loop; that
propagation is modeled by the `none` result. -/
def detect_risks_multiple_aux (llm : ClauseDict → Except Str RiskAssessmentResult)
    (classifications : List (Option ClassificationDict)) :
    Nat → List ClauseDict → Option (List PipelineRisk)
  | _, [] => some []
  | i, clause :: restClauses =>
    let classification := classifications.getD i none
    let subclauses := split_into_subclauses clause
    if 1 < subclauses.length then
      let sub_results := subclauses.map (fun sc => detect_risks sc classification (llm sc))
      match merge_subclause_risks clause sub_results with
      | none => none
      | some m =>
        match detect_risks_multiple_aux llm classifications (i + 1) restClauses with
        | none => none
        | some out => some (.merged m :: out)
    else
      match detect_risks_multiple_aux llm classifications (i + 1) restClauses with
      | none => none
      | some out => some (.single (detect_risks clause classification (llm clause)) :: out)

/-- Model of `RiskDetectorAgent.detect_risks_multiple_clauses`. -/
def detect_risks_multiple_clauses (clauses : List ClauseDict)
    (classifications : List (Option ClassificationDict))
    (llm : ClauseDict → Except Str RiskAssessmentResult) : Option (List PipelineRisk) :=
  detect_risks_multiple_aux llm classifications 0 clauses

/-! ### Provider invocation layer (`utils/llm_provider_manager.py`)

The provider manager performs blocking network calls; each backend's
underlying attempt behavior is abstracted as a function from the attempt
number (1-based) to that attempt's outcome.  Elapsed backoff time is made
explicit as a second component so that delay claims are statable. -/

/-- Outcome of one raw attempt against a backend, after the adapter has
translated provider-native exceptions (`_call_openai_structured` maps
`openai.RateLimitError` to the module's `RateLimitError` and everything else
to `APIError`; the Gemini adapter classifies by message substring). -/
inductive AttemptResult (α : Type) where
  | ok (v : α)
  | rateLimitErr (msg : String)
  | apiErr (msg : String)

/-- Outcome of a backend call wrapped by the `tenacity` retry decorator:
success, a non-retryable error re-raised as-is, or rate-limit exhaustion,
which `tenacity` (with its default `reraise=False`) surfaces as a
`RetryError` wrapping the last attempt. -/
inductive RetryOutcome (α : Type) where
  | ok (v : α)
  | raised (msg : String)
  | retryErrorExhausted (lastMsg : String)

/-- The sleep before retrying attempt `attempt + 1`, from
`wait_exponential(multiplier=1, min=1, max=60)` after attempt number
`attempt`: `max(min, min(multiplier * 2^(attempt-1), max))` seconds. -/
def wait_exponential (attempt : Nat) : Nat :=
  max 1 (min (2 ^ (attempt - 1)) 60)

/-- The retry loop produced by
`@retry(stop=stop_after_attempt(3), wait=wait_exponential(...),
retry=retry_if_exception_type((RateLimitError,)))`: run attempt `n`; return
on success; re-raise any non-`RateLimitError` immediately; on a
`RateLimitError`, stop after the third attempt, otherwise sleep and retry.
The second component accumulates the total backoff slept. -/
def retry_loop (att : Nat → AttemptResult α) (n : Nat) (slept : Nat) :
    RetryOutcome α × Nat :=
  match att n with
  | .ok v => (.ok v, slept)
  | .apiErr m => (.raised m, slept)
  | .rateLimitErr m =>
    if _h : 3 ≤ n then (.retryErrorExhausted m, slept)
    else retry_loop att (n + 1) (slept + wait_exponential n)
termination_by 3 - n

/-- Model of `_call_openai_structured` (and, identically decorated,
`_call_gemini_structured`): the retry loop started at attempt 1 with no
backoff yet slept. -/
def call_openai_structured (att : Nat → AttemptResult α) : RetryOutcome α × Nat :=
  retry_loop att 1 0

/-- Result of `structured_chat`: a validated object, or the
`AllProvidersFailedError` carrying the per-backend error list it was built
from. -/
inductive SCResult (α : Type) where
  | ok (v : α)
  | allFailed (message : String) (errors : List String)

/-- The exception message of `AllProvidersFailedError` as formatted at source
lines 196–198. -/
def allProvidersFailedMessage (errors : List String) : String :=
  "All LLM providers failed for structured output:\n" ++ String.intercalate "\n" errors

/-- Model of `LLMProviderManager.structured_chat` (source lines 144–198).
`oa`/`ga` are the availability flags; `co`/`cg` abstract the whole
retry-wrapped backend calls: `.ok` is a validated result, `.error e` is the
message of whatever exception propagated out of the wrapped call. -/
def structured_chat (oa ga : Bool) (co cg : Except String α) : SCResult α :=
  if oa then
    match co with
    | .ok v => .ok v
    | .error e =>
      let errors := ["OpenAI structured call failed: " ++ e]
      if ga then
        match cg with
        | .ok v => .ok v
        | .error e2 =>
          let errors := errors ++ ["Gemini structured call failed: " ++ e2]
          .allFailed (allProvidersFailedMessage errors) errors
      else .allFailed (allProvidersFailedMessage errors) errors
  else if ga then
    match cg with
    | .ok v => .ok v
    | .error e2 =>
      let errors := ["Gemini structured call failed: " ++ e2]
      .allFailed (allProvidersFailedMessage errors) errors
  else .allFailed (allProvidersFailedMessage []) []

/-- The provider-availability and active-provider state set up by
`LLMProviderManager.__init__` / `_initialize_providers`. -/
structure ProviderManagerState where
  openai_available : Bool
  gemini_available : Bool
  active_provider : Option String
deriving DecidableEq

/-- Python truthiness of an optional credential string: present and
non-empty. -/
def truthy : Option String → Bool
  | none => false
  | some s => s != ""

/-- Model of `self.config.get("GEMINI_API_KEY") or
self.config.get("GOOGLE_API_KEY")`: the first operand if truthy, otherwise
the second as-is. -/
def google_key_of (gemini google : Option String) : Option String :=
  if truthy gemini then gemini else google

/-- Model of `LLMProviderManager._initialize_providers` (source lines
99–125): mark each backend available iff its key is truthy, set the active
provider to OpenAI when present, else Gemini; raise
`AllProvidersFailedError` when no backend is available. -/
def initialize_providers (openai_key google_key : Option String) :
    Except String ProviderManagerState :=
  let s0 : ProviderManagerState :=
    { openai_available := false, gemini_available := false, active_provider := none }
  let s1 := if truthy openai_key then
      { s0 with openai_available := true, active_provider := some "openai" }
    else s0
  let s2 := if truthy google_key then
      { s1 with gemini_available := true
                active_provider := if s1.active_provider = none then some "gemini"
                  else s1.active_provider }
    else s1
  if !(s2.openai_available || s2.gemini_available) then
    .error ("CRITICAL: No LLM providers available.\n" ++
      "Please check your API keys in the .env file:\n" ++
      "- OPENAI_API_KEY\n" ++
      "- GEMINI_API_KEY (or GOOGLE_API_KEY)")
  else .ok s2

/-- A sample composite clause (two sub-section markers after an intro line),
used to exercise the decomposer at a concrete input. -/
def sampleClause : ClauseDict :=
  ClauseDict.mk "c1".toList "2".toList "T".toList
    "intro\n2.1 aa\n2.2 bb".toList "t".toList none

/-- A sample clause whose text contains exactly one sub-section marker. -/
def sampleSingleMarker : ClauseDict :=
  ClauseDict.mk "c1".toList "2".toList "T".toList
    "2.1 Something here".toList "t".toList none

/-! ## Theorems -/

/-! ### The risk merger (claims C1, C7, C10) -/

theorem insertDesc_ne_nil (x : SubRisk) (l : List SubRisk) : insertDesc x l ≠ [] := by
  cases l with
  | nil => simp [insertDesc]
  | cons y ys =>
    unfold insertDesc
    by_cases h : risk_order y.risk_level ≤ risk_order x.risk_level <;> simp [h]

theorem mem_insertDesc (a x : SubRisk) (l : List SubRisk) :
    a ∈ insertDesc x l ↔ a = x ∨ a ∈ l := by
  induction l with
  | nil => simp [insertDesc]
  | cons y ys ih =>
    unfold insertDesc
    by_cases h : risk_order y.risk_level ≤ risk_order x.risk_level
    · simp [h]
    · simp [h, ih]
      tauto

theorem mem_sortByRiskDesc (a : SubRisk) (l : List SubRisk) :
    a ∈ sortByRiskDesc l ↔ a ∈ l := by
  induction l with
  | nil => simp [sortByRiskDesc]
  | cons x xs ih =>
    rw [sortByRiskDesc, mem_insertDesc]
    simp [ih]

theorem head?_insertDesc (x : SubRisk) (l : List SubRisk) :
    (insertDesc x l).head? = some (match l.head? with
      | none => x
      | some y => if risk_order y.risk_level ≤ risk_order x.risk_level then x else y) := by
  cases l with
  | nil => rfl
  | cons y ys =>
    unfold insertDesc
    by_cases h : risk_order y.risk_level ≤ risk_order x.risk_level <;> simp [h]

theorem head?_sortByRiskDesc (l : List SubRisk) :
    (sortByRiskDesc l).head? = selectMaxFirst l := by
  induction l with
  | nil => rfl
  | cons r rs ih =>
    rw [sortByRiskDesc, head?_insertDesc, ih]
    rw [selectMaxFirst]
    cases h : selectMaxFirst rs with
    | none => rfl
    | some m =>
      by_cases hc : risk_order r.risk_level < risk_order m.risk_level
      · simp [Nat.not_le.mpr hc, hc]
      · simp [Nat.not_lt.mp hc, hc]

theorem selectMaxFirst_spec (l : List SubRisk) (hl : l ≠ []) :
    ∃ i : Fin l.length, selectMaxFirst l = some (l.get i) ∧
      (∀ j : Fin l.length,
        risk_order (l.get j).risk_level ≤ risk_order (l.get i).risk_level) ∧
      (∀ j : Fin l.length, (j : ℕ) < (i : ℕ) →
        risk_order (l.get j).risk_level < risk_order (l.get i).risk_level) := by
  induction l with
  | nil => exact absurd rfl hl
  | cons r rs ih =>
    rcases eq_or_ne rs [] with hrs | hrs
    · subst hrs
      refine ⟨⟨0, Nat.one_pos⟩, rfl, ?_, ?_⟩
      · intro j
        have hj : (j : ℕ) = 0 := Nat.lt_one_iff.mp j.isLt
        have : j = ⟨0, Nat.one_pos⟩ := Fin.ext hj
        rw [this]
      · intro j hj
        exact absurd hj (by simp)
    · obtain ⟨i, hi, hmax, hstrict⟩ := ih hrs
      have hsel : selectMaxFirst (r :: rs) =
          if risk_order r.risk_level < risk_order (rs.get i).risk_level
          then some (rs.get i) else some r := by
        rw [selectMaxFirst, hi]
      by_cases hc : risk_order r.risk_level < risk_order (rs.get i).risk_level
      · refine ⟨i.succ, ?_, ?_, ?_⟩
        · rw [hsel, if_pos hc]
          rfl
        · intro j
          refine Fin.cases ?_ ?_ j
          · exact Nat.le_of_lt hc
          · intro j'
            exact hmax j'
        · intro j
          refine Fin.cases ?_ ?_ j
          · intro _
            exact hc
          · intro j' hj'
            exact hstrict j' (Nat.lt_of_succ_lt_succ hj')
      · refine ⟨⟨0, Nat.succ_pos _⟩, ?_, ?_, ?_⟩
        · rw [hsel, if_neg hc]
          rfl
        · intro j
          refine Fin.cases ?_ ?_ j
          · exact Nat.le_refl _
          · intro j'
            exact Nat.le_trans (hmax j') (Nat.not_lt.mp hc)
        · intro j hj
          exact absurd hj (by simp)

theorem merge_cons_eq (p : ClauseDict) (r : SubRisk) (rest : List SubRisk) :
    ∃ hd tl, sortByRiskDesc (r :: rest) = hd :: tl ∧
      merge_subclause_risks p (r :: rest) = some
        { clause_id := p.clause_id
          risk_level := hd.risk_level
          risk_score := hd.risk_score
          identified_risks := ((r :: rest).map (fun s => s.identified_risks)).flatten
          recommendations :=
            dedupKeys [] (((r :: rest).map (fun s => s.recommendations)).flatten)
          overall_assessment := hd.overall_assessment
          original_clause := p
          classification := r.classification
          sub_clause_results := r :: rest } := by
  have hne : sortByRiskDesc (r :: rest) ≠ [] := by
    rw [sortByRiskDesc]
    exact insertDesc_ne_nil _ _
  obtain ⟨hd, tl, heq⟩ := List.exists_cons_of_ne_nil hne
  refine ⟨hd, tl, heq, ?_⟩
  simp only [merge_subclause_risks, heq]

/-- C1: for every non-empty list of sub-clause risk results, the merged
`risk_level`, `risk_score` and `overall_assessment` are copied verbatim from
the sub-result that is maximal under the `risk_order` severity order
(HIGH > MEDIUM > LOW > NONE > anything unrecognized), ties broken by first
occurrence in the input order; no other sub-result's fields reach the merged
scalar fields. -/
theorem merged_scalars_copied_from_first_maximal
    (p : ClauseDict) (r0 : SubRisk) (rest : List SubRisk) :
    ∃ (m : MergedRisk) (i : Fin (r0 :: rest).length),
      merge_subclause_risks p (r0 :: rest) = some m ∧
      m.risk_level = ((r0 :: rest).get i).risk_level ∧
      m.risk_score = ((r0 :: rest).get i).risk_score ∧
      m.overall_assessment = ((r0 :: rest).get i).overall_assessment ∧
      (∀ j : Fin (r0 :: rest).length,
        risk_order ((r0 :: rest).get j).risk_level ≤
          risk_order ((r0 :: rest).get i).risk_level) ∧
      (∀ j : Fin (r0 :: rest).length, (j : ℕ) < (i : ℕ) →
        risk_order ((r0 :: rest).get j).risk_level <
          risk_order ((r0 :: rest).get i).risk_level) := by
  obtain ⟨i, hi, hmax, hstrict⟩ := selectMaxFirst_spec (r0 :: rest) (List.cons_ne_nil _ _)
  obtain ⟨hd, tl, heq, hm⟩ := merge_cons_eq p r0 rest
  have hhd : hd = (r0 :: rest).get i := by
    have := head?_sortByRiskDesc (r0 :: rest)
    rw [heq, hi] at this
    exact Option.some_injective _ this
  subst hhd
  exact ⟨_, i, hm, rfl, rfl, rfl, hmax, hstrict⟩

theorem dedupKeys_sublist (l : List Str) : ∀ seen : List Str, (dedupKeys seen l).Sublist l := by
  induction l with
  | nil => intro seen; simp [dedupKeys]
  | cons x xs ih =>
    intro seen
    by_cases h : x ∈ seen
    · rw [dedupKeys, if_pos h]
      exact (ih seen).trans (List.sublist_cons_self _ _)
    · rw [dedupKeys, if_neg h]
      exact (ih _).cons₂ x

theorem dedupKeys_mem (l : List Str) :
    ∀ (seen : List Str) (x : Str), x ∈ dedupKeys seen l ↔ x ∈ l ∧ x ∉ seen := by
  induction l with
  | nil => intro seen x; simp [dedupKeys]
  | cons y ys ih =>
    intro seen x
    by_cases h : y ∈ seen
    · rw [dedupKeys, if_pos h, ih]
      simp only [List.mem_cons]
      constructor
      · rintro ⟨hx, hs⟩
        exact ⟨Or.inr hx, hs⟩
      · rintro ⟨hy | hx, hs⟩
        · exact absurd (hy ▸ h) hs
        · exact ⟨hx, hs⟩
    · rw [dedupKeys, if_neg h]
      by_cases hxy : x = y
      · subst hxy
        simp [h]
      · simp only [List.mem_cons, hxy, false_or, ih, List.mem_append,
          List.mem_singleton, not_or]
        tauto

theorem dedupKeys_nodup (l : List Str) : ∀ seen : List Str, (dedupKeys seen l).Nodup := by
  induction l with
  | nil => intro seen; simp [dedupKeys]
  | cons y ys ih =>
    intro seen
    by_cases h : y ∈ seen
    · rw [dedupKeys, if_pos h]
      exact ih seen
    · rw [dedupKeys, if_neg h, List.nodup_cons]
      refine ⟨fun hy => ?_, ih _⟩
      rw [dedupKeys_mem] at hy
      exact hy.2 (by simp)

/-- C7: the merged `identified_risks` list is the concatenation, in input
order, of the sub-results' `identified_risks` (no deduplication, length =
sum of counts); the merged `recommendations` list is the concatenation of the
sub-results' recommendations deduplicated by exact string equality keeping
first occurrences in order (no duplicates, a sublist of the concatenation,
with exactly its members). -/
theorem merged_lists_concatenated_and_deduplicated
    (p : ClauseDict) (r0 : SubRisk) (rest : List SubRisk) :
    ∃ m : MergedRisk,
      merge_subclause_risks p (r0 :: rest) = some m ∧
      m.identified_risks = ((r0 :: rest).map (fun s => s.identified_risks)).flatten ∧
      m.identified_risks.length =
        (((r0 :: rest).map (fun s => s.identified_risks)).map List.length).sum ∧
      m.recommendations =
        dedupKeys [] (((r0 :: rest).map (fun s => s.recommendations)).flatten) ∧
      m.recommendations.Nodup ∧
      m.recommendations.Sublist (((r0 :: rest).map (fun s => s.recommendations)).flatten) ∧
      (∀ s : Str, s ∈ m.recommendations ↔
        s ∈ ((r0 :: rest).map (fun s => s.recommendations)).flatten) := by
  obtain ⟨hd, tl, heq, hm⟩ := merge_cons_eq p r0 rest
  refine ⟨_, hm, rfl, ?_, rfl, dedupKeys_nodup _ _, dedupKeys_sublist _ _, ?_⟩
  · exact List.length_flatten _
  · intro s
    rw [dedupKeys_mem]
    simp

/-- C10: the merger is only well-defined on a non-empty input: on `[]` the
source raises `IndexError` at `sorted_results[0]` (modeled as `none`); on a
non-empty input it returns a value whose `classification` is read from the
first input element; and under the caller's precondition (in
`detect_risks_multiple_clauses` the merger receives one result per sub-clause
and is invoked only when there are at least 2 sub-clauses) the empty-input
failure is unreachable. -/
theorem merger_defined_only_on_nonempty :
    (∀ p : ClauseDict, merge_subclause_risks p [] = none) ∧
    (∀ (p : ClauseDict) (r : SubRisk) (rest : List SubRisk),
      ∃ m, merge_subclause_risks p (r :: rest) = some m ∧
        m.classification = r.classification) ∧
    (∀ (p : ClauseDict) (subclauses : List ClauseDict) (f : ClauseDict → SubRisk),
      1 < subclauses.length → (merge_subclause_risks p (subclauses.map f)).isSome = true) := by
  refine ⟨fun p => rfl, fun p r rest => ?_, fun p scs f h => ?_⟩
  · obtain ⟨hd, tl, _, hm⟩ := merge_cons_eq p r rest
    exact ⟨_, hm, rfl⟩
  · cases scs with
    | nil => simp at h
    | cons c1 cs =>
      obtain ⟨hd, tl, _, hm⟩ := merge_cons_eq p (f c1) (cs.map f)
      simp [hm]

/-! ### Conservative per-clause fallbacks (claim C8) -/

theorem detect_risks_of_error (c : ClauseDict) (cls : Option ClassificationDict) (e : Str) :
    detect_risks c cls (.error e) = create_fallback_risk_assessment c := rfl

theorem detect_risks_multiple_aux_all_errors
    (rllm : ClauseDict → Except Str RiskAssessmentResult)
    (hr : ∀ c, ∃ e, rllm c = .error e)
    (classifications : List (Option ClassificationDict)) :
    ∀ (clauses : List ClauseDict) (i : Nat),
      ∃ out, detect_risks_multiple_aux rllm classifications i clauses = some out ∧
        out.length = clauses.length ∧
        ∀ r ∈ out, r.risk_level = "MEDIUM".toList ∧ r.risk_score = 1/2 := by
  intro clauses
  induction clauses with
  | nil => intro i; exact ⟨[], rfl, rfl, by simp⟩
  | cons c cs ih =>
    intro i
    obtain ⟨out, ho, hl, hp⟩ := ih (i + 1)
    by_cases hs : 1 < (split_into_subclauses c).length
    · obtain ⟨sc1, scs, hsc⟩ : ∃ a t, split_into_subclauses c = a :: t := by
        cases hq : split_into_subclauses c with
        | nil => rw [hq] at hs; simp at hs
        | cons a t => exact ⟨a, t, rfl⟩
      have hmap : ∀ s ∈ (split_into_subclauses c).map
          (fun sc => detect_risks sc (classifications.getD i none) (rllm sc)),
          s.risk_level = "MEDIUM".toList ∧ s.risk_score = 1/2 := by
        intro s hsmem
        obtain ⟨sc, _, rfl⟩ := List.mem_map.mp hsmem
        obtain ⟨e, he⟩ := hr sc
        rw [he, detect_risks_of_error]
        exact ⟨rfl, rfl⟩
      obtain ⟨hd, tl, hsort, hm⟩ := merge_cons_eq c
        (detect_risks sc1 (classifications.getD i none) (rllm sc1))
        (scs.map (fun sc => detect_risks sc (classifications.getD i none) (rllm sc)))
      have hhd : hd.risk_level = "MEDIUM".toList ∧ hd.risk_score = 1/2 := by
        refine hmap hd ?_
        have : hd ∈ sortByRiskDesc
            (detect_risks sc1 (classifications.getD i none) (rllm sc1) ::
              scs.map (fun sc => detect_risks sc (classifications.getD i none) (rllm sc))) := by
          rw [hsort]; exact List.mem_cons_self _ _
        rw [mem_sortByRiskDesc] at this
        rw [hsc, List.map_cons]
        exact this
      obtain ⟨M, hm2, hMl, hMs⟩ :
          ∃ M, merge_subclause_risks c
            ((split_into_subclauses c).map
              (fun sc => detect_risks sc (classifications.getD i none) (rllm sc))) = some M ∧
            M.risk_level = "MEDIUM".toList ∧ M.risk_score = 1/2 := by
        rw [hsc, List.map_cons]
        exact ⟨_, hm, hhd.1, hhd.2⟩
      refine ⟨PipelineRisk.merged M :: out, ?_, ?_, ?_⟩
      · simp only [detect_risks_multiple_aux]
        rw [if_pos hs, hm2, ho]
      · simp [hl]
      · intro r hrmem
        rcases List.mem_cons.mp hrmem with hhead | htail
        · subst hhead
          exact ⟨hMl, hMs⟩
        · exact hp r htail
    · obtain ⟨e, he⟩ := hr c
      refine ⟨PipelineRisk.single
        (detect_risks c (classifications.getD i none) (rllm c)) :: out, ?_, ?_, ?_⟩
      · simp only [detect_risks_multiple_aux]
        rw [if_neg hs, ho]
      · simp [hl]
      · intro r hrmem
        rcases List.mem_cons.mp hrmem with hhead | htail
        · subst hhead
          show (PipelineRisk.single _).risk_level = _ ∧ (PipelineRisk.single _).risk_score = _
          rw [he, detect_risks_of_error]
          exact ⟨rfl, rfl⟩
        · exact hp r htail

/-- C8: a clause whose risk call raises (any error) is replaced by the
conservative fallback with `risk_level` exactly `"MEDIUM"` and `risk_score`
exactly `0.5` (never `"NONE"` with `0.0`); a clause whose classification call
raises gets category `"Miscellaneous"` with confidence `0`; and neither kind
of per-clause failure aborts the pipeline: even when every risk call fails,
`detect_risks_multiple_clauses` still returns one result per clause (all
flagged MEDIUM / 0.5), and `classify_multiple_clauses` returns one
classification per clause. -/
theorem per_clause_failures_fall_back_conservatively
    (clauses : List ClauseDict) (classifications : List (Option ClassificationDict))
    (rllm : ClauseDict → Except Str RiskAssessmentResult)
    (cllm : ClauseDict → Except Str ClassificationResult)
    (hr : ∀ c, ∃ e, rllm c = .error e) :
    (∀ (c : ClauseDict) (cls : Option ClassificationDict) (e : Str),
      (detect_risks c cls (.error e)).risk_level = "MEDIUM".toList ∧
      (detect_risks c cls (.error e)).risk_score = 1/2 ∧
      (detect_risks c cls (.error e)).risk_level ≠ "NONE".toList ∧
      (detect_risks c cls (.error e)).risk_score ≠ 0) ∧
    (∃ out, detect_risks_multiple_clauses clauses classifications rllm = some out ∧
      out.length = clauses.length ∧
      ∀ r ∈ out, r.risk_level = "MEDIUM".toList ∧ r.risk_score = 1/2) ∧
    (∀ (c : ClauseDict) (e : Str),
      (classify_clause c (.error e)).category = "Miscellaneous".toList ∧
      (classify_clause c (.error e)).confidence = 0) ∧
    (classify_multiple_clauses clauses cllm).length = clauses.length := by
  refine ⟨?_, ?_, ?_, ?_⟩
  · intro c cls e
    rw [detect_risks_of_error]
    refine ⟨rfl, rfl, ?_, ?_⟩
    · show "MEDIUM".toList ≠ "NONE".toList
      decide
    · show (1 : ℚ)/2 ≠ 0
      norm_num
  · exact detect_risks_multiple_aux_all_errors rllm hr classifications clauses 0
  · intro c e
    exact ⟨rfl, rfl⟩
  · simp [classify_multiple_clauses]

theorem per_clause_fallback_witness :
    (∀ c : ClauseDict, ∃ e : Str,
      (fun _ : ClauseDict => (Except.error [] : Except Str RiskAssessmentResult)) c =
        Except.error e) ∧
    (∃ out, detect_risks_multiple_clauses [ClauseDict.mk [] [] [] [] [] none] []
        (fun _ : ClauseDict => (Except.error [] : Except Str RiskAssessmentResult)) =
          some out ∧
      out.length = [ClauseDict.mk [] [] [] [] [] none].length ∧
      ∀ r ∈ out, r.risk_level = "MEDIUM".toList ∧ r.risk_score = 1/2) :=
  have hr : ∀ c : ClauseDict, ∃ e : Str,
      (fun _ : ClauseDict => (Except.error [] : Except Str RiskAssessmentResult)) c =
        Except.error e := fun _ => ⟨[], rfl⟩
  ⟨hr, (per_clause_failures_fall_back_conservatively [ClauseDict.mk [] [] [] [] [] none] []
    (fun _ : ClauseDict => (Except.error [] : Except Str RiskAssessmentResult))
    (fun _ : ClauseDict => (Except.error [] : Except Str ClassificationResult)) hr).2.1⟩

/-! ### Provider invocation layer (claims C2, C3, C9) -/

/-- C2: a structured invocation either returns, unmodified, the value of some
configured backend call that succeeded, or — when every configured backend
was attempted and failed — produces `AllProvidersFailedError` carrying the
error message that propagated from each attempted backend, in backend
priority order (OpenAI before Gemini); no other result shape exists. -/
theorem structured_chat_validated_or_all_failed {α : Type} (oa ga : Bool)
    (co cg : Except String α) :
    (∃ v, structured_chat oa ga co cg = .ok v ∧
      ((oa = true ∧ co = .ok v) ∨ (ga = true ∧ cg = .ok v))) ∨
    (∃ errs, structured_chat oa ga co cg = .allFailed (allProvidersFailedMessage errs) errs ∧
      errs = (if oa = true then (match co with
          | .ok _ => []
          | .error e => ["OpenAI structured call failed: " ++ e]) else []) ++
        (if ga = true then (match cg with
          | .ok _ => []
          | .error e2 => ["Gemini structured call failed: " ++ e2]) else []) ∧
      (oa = true → ∃ e, co = .error e) ∧
      (ga = true → ∃ e, cg = .error e)) := by
  cases oa <;> cases ga <;> rcases co with v | e <;> rcases cg with v2 | e2 <;>
    first
      | exact Or.inl ⟨_, rfl, Or.inl ⟨rfl, rfl⟩⟩
      | exact Or.inl ⟨_, rfl, Or.inr ⟨rfl, rfl⟩⟩
      | exact Or.inr ⟨_, rfl, rfl, fun h => absurd h (by decide),
          fun h => absurd h (by decide)⟩
      | exact Or.inr ⟨_, rfl, rfl, fun h => absurd h (by decide), fun _ => ⟨_, rfl⟩⟩
      | exact Or.inr ⟨_, rfl, rfl, fun _ => ⟨_, rfl⟩, fun h => absurd h (by decide)⟩
      | exact Or.inr ⟨_, rfl, rfl, fun _ => ⟨_, rfl⟩, fun _ => ⟨_, rfl⟩⟩

/-- C3: within a single backend, only rate-limit errors are retried, with at
most 3 attempts and the capped exponential backoff slept between consecutive
attempts; the first success or non-retryable error on any attempt ends the
loop at once (a non-retryable error on attempt 1 means zero backoff slept,
so failover to the next backend happens with no delay), and a rate-limit
error can only end the loop on attempt 3, as exhaustion. -/
theorem backend_retries_only_rate_limits {α : Type} (att : Nat → AttemptResult α) :
    (∃ n, 1 ≤ n ∧ n ≤ 3 ∧
      (∀ k, 1 ≤ k → k < n → ∃ m, att k = .rateLimitErr m) ∧
      (call_openai_structured att).2 =
        ((List.range (n - 1)).map (fun k => wait_exponential (k + 1))).sum ∧
      (∀ v, att n = .ok v → (call_openai_structured att).1 = .ok v) ∧
      (∀ m, att n = .apiErr m → (call_openai_structured att).1 = .raised m) ∧
      (∀ m, att n = .rateLimitErr m → n = 3 ∧
        (call_openai_structured att).1 = .retryErrorExhausted m)) ∧
    (∀ m, att 1 = .apiErr m → call_openai_structured att = (.raised m, 0)) := by
  rcases h1 : att 1 with v | m | m
  · -- attempt 1 succeeds
    have hcall : call_openai_structured att = (.ok v, 0) := by
      rw [call_openai_structured, retry_loop, h1]
    refine ⟨⟨1, Nat.le_refl 1, by norm_num, fun k hk1 hk2 => absurd hk2 (by omega),
      ?_, ?_, ?_, ?_⟩, ?_⟩
    · rw [hcall]
      exact (by decide :
        (0 : Nat) = ((List.range (1 - 1)).map (fun k => wait_exponential (k + 1))).sum)
    · intro v' hv
      rw [h1] at hv
      cases hv
      rw [hcall]
    · intro m' hm
      rw [h1] at hm
      cases hm
    · intro m' hm
      rw [h1] at hm
      cases hm
    · intro m' hm
      cases hm
  · -- attempt 1 is a rate-limit error: sleep and retry
    have hstep1 : call_openai_structured att = retry_loop att 2 (0 + wait_exponential 1) := by
      rw [call_openai_structured, retry_loop, h1]
      rfl
    rcases h2 : att 2 with v | m2 | m2
    · have hcall : call_openai_structured att = (.ok v, 0 + wait_exponential 1) := by
        rw [hstep1, retry_loop, h2]
      refine ⟨⟨2, by norm_num, by norm_num, ?_, ?_, ?_, ?_, ?_⟩, ?_⟩
      · intro k hk1 hk2
        have hk : k = 1 := by omega
        rw [hk, h1]
        exact ⟨m, rfl⟩
      · rw [hcall]
        exact (by decide : (0 + wait_exponential 1 : Nat) =
          ((List.range (2 - 1)).map (fun k => wait_exponential (k + 1))).sum)
      · intro v' hv
        rw [h2] at hv
        cases hv
        rw [hcall]
      · intro m' hm
        rw [h2] at hm
        cases hm
      · intro m' hm
        rw [h2] at hm
        cases hm
      · intro m' hm
        cases hm
    · -- attempt 2 rate-limited as well: sleep and retry once more
      have hstep2 : call_openai_structured att =
          retry_loop att 3 (0 + wait_exponential 1 + wait_exponential 2) := by
        rw [hstep1, retry_loop, h2]
        rfl
      rcases h3 : att 3 with v | m3 | m3
      · have hcall : call_openai_structured att =
            (.ok v, 0 + wait_exponential 1 + wait_exponential 2) := by
          rw [hstep2, retry_loop, h3]
        refine ⟨⟨3, by norm_num, Nat.le_refl 3, ?_, ?_, ?_, ?_, ?_⟩, ?_⟩
        · intro k hk1 hk2
          interval_cases k
          · rw [h1]
            exact ⟨m, rfl⟩
          · rw [h2]
            exact ⟨m2, rfl⟩
        · rw [hcall]
          exact (by decide : (0 + wait_exponential 1 + wait_exponential 2 : Nat) =
            ((List.range (3 - 1)).map (fun k => wait_exponential (k + 1))).sum)
        · intro v' hv
          rw [h3] at hv
          cases hv
          rw [hcall]
        · intro m' hm
          rw [h3] at hm
          cases hm
        · intro m' hm
          rw [h3] at hm
          cases hm
        · intro m' hm
          cases hm
      · -- three rate limits: exhaustion, surfaced as RetryError
        have hcall : call_openai_structured att =
            (.retryErrorExhausted m3, 0 + wait_exponential 1 + wait_exponential 2) := by
          rw [hstep2, retry_loop, h3]
          rfl
        refine ⟨⟨3, by norm_num, Nat.le_refl 3, ?_, ?_, ?_, ?_, ?_⟩, ?_⟩
        · intro k hk1 hk2
          interval_cases k
          · rw [h1]
            exact ⟨m, rfl⟩
          · rw [h2]
            exact ⟨m2, rfl⟩
        · rw [hcall]
          exact (by decide : (0 + wait_exponential 1 + wait_exponential 2 : Nat) =
            ((List.range (3 - 1)).map (fun k => wait_exponential (k + 1))).sum)
        · intro v' hv
          rw [h3] at hv
          cases hv
        · intro m' hm
          rw [h3] at hm
          cases hm
        · intro m' hm
          rw [h3] at hm
          cases hm
          exact ⟨rfl, by rw [hcall]⟩
        · intro m' hm
          cases hm
      · have hcall : call_openai_structured att =
            (.raised m3, 0 + wait_exponential 1 + wait_exponential 2) := by
          rw [hstep2, retry_loop, h3]
        refine ⟨⟨3, by norm_num, Nat.le_refl 3, ?_, ?_, ?_, ?_, ?_⟩, ?_⟩
        · intro k hk1 hk2
          interval_cases k
          · rw [h1]
            exact ⟨m, rfl⟩
          · rw [h2]
            exact ⟨m2, rfl⟩
        · rw [hcall]
          exact (by decide : (0 + wait_exponential 1 + wait_exponential 2 : Nat) =
            ((List.range (3 - 1)).map (fun k => wait_exponential (k + 1))).sum)
        · intro v' hv
          rw [h3] at hv
          cases hv
        · intro m' hm
          rw [h3] at hm
          cases hm
          rw [hcall]
        · intro m' hm
          rw [h3] at hm
          cases hm
        · intro m' hm
          cases hm
    · have hcall : call_openai_structured att = (.raised m2, 0 + wait_exponential 1) := by
        rw [hstep1, retry_loop, h2]
      refine ⟨⟨2, by norm_num, by norm_num, ?_, ?_, ?_, ?_, ?_⟩, ?_⟩
      · intro k hk1 hk2
        have hk : k = 1 := by omega
        rw [hk, h1]
        exact ⟨m, rfl⟩
      · rw [hcall]
        exact (by decide : (0 + wait_exponential 1 : Nat) =
          ((List.range (2 - 1)).map (fun k => wait_exponential (k + 1))).sum)
      · intro v' hv
        rw [h2] at hv
        cases hv
      · intro m' hm
        rw [h2] at hm
        cases hm
        rw [hcall]
      · intro m' hm
        rw [h2] at hm
        cases hm
      · intro m' hm
        cases hm
  · -- attempt 1 is non-retryable: re-raised at once, zero backoff
    have hcall : call_openai_structured att = (.raised m, 0) := by
      rw [call_openai_structured, retry_loop, h1]
    refine ⟨⟨1, Nat.le_refl 1, by norm_num, fun k hk1 hk2 => absurd hk2 (by omega),
      ?_, ?_, ?_, ?_⟩, ?_⟩
    · rw [hcall]
      exact (by decide :
        (0 : Nat) = ((List.range (1 - 1)).map (fun k => wait_exponential (k + 1))).sum)
    · intro v' hv
      rw [h1] at hv
      cases hv
    · intro m' hm
      rw [h1] at hm
      cases hm
      rw [hcall]
    · intro m' hm
      rw [h1] at hm
      cases hm
    · intro m' hm
      cases hm
      rw [hcall]

/-- C9: manager construction succeeds iff at least one backend credential is
present (truthy); with no credential at all it raises instead of producing a
state; and on success the advisory active backend is the highest-priority
backend whose credential is present (OpenAI over Gemini), with the
availability flags reflecting exactly the present credentials. -/
theorem construction_requires_some_credential (ok gk : Option String) :
    ((∃ st, initialize_providers ok gk = .ok st) ↔ (truthy ok = true ∨ truthy gk = true)) ∧
    (truthy ok = false → truthy gk = false →
      ∃ msg, initialize_providers ok gk = .error msg) ∧
    (∀ st, initialize_providers ok gk = .ok st →
      st.active_provider = if truthy ok = true then some "openai" else some "gemini") ∧
    (∀ st, initialize_providers ok gk = .ok st →
      st.openai_available = truthy ok ∧ st.gemini_available = truthy gk) := by
  cases hok : truthy ok <;> cases hgk : truthy gk <;>
    simp [initialize_providers, hok, hgk]

/-! ### Clause decomposition (claims C4, C5, C6) -/

theorem mem_dropWhile_of_false {p : Char → Bool} {c : Char} {l : Str}
    (hc : c ∈ l) (h : p c = false) : c ∈ l.dropWhile p := by
  induction l with
  | nil => cases hc
  | cons x xs ih =>
    rw [List.dropWhile]
    cases hx : p x with
    | true =>
      rcases List.mem_cons.mp hc with rfl | hm
      · rw [hx] at h
        cases h
      · exact ih hm
    | false => simpa using hc

theorem mem_pstrip {c : Char} {s : Str} (hc : c ∈ s) (hns : isPySpace c = false) :
    c ∈ pstrip s := by
  rw [pstrip, List.mem_reverse]
  refine mem_dropWhile_of_false ?_ hns
  rw [List.mem_reverse]
  exact mem_dropWhile_of_false hc hns

theorem pstrip_ne_nil {c : Char} {s : Str} (hc : c ∈ s) (hns : isPySpace c = false) :
    pstrip s ≠ [] :=
  List.ne_nil_of_mem (mem_pstrip hc hns)

theorem isPyDigit_not_space {c : Char} (h : isPyDigit c = true) : isPySpace c = false := by
  simp only [isPyDigit, Bool.or_eq_true, beq_iff_eq] at h
  rcases h with ((((((((h | h) | h) | h) | h) | h) | h) | h) | h) | h <;> subst h <;> decide

theorem dropIntro_withIntro (intro sub_text : Str) :
    dropIntro intro (withIntro intro sub_text) = sub_text := by
  by_cases h : intro = []
  · simp [dropIntro, withIntro, h]
  · rw [dropIntro, withIntro, if_neg h, if_neg h, List.append_assoc,
      show intro.length + 2 = intro.length + 2 from rfl]
    rw [List.drop_append 2]
    rfl

theorem markerSpans_length (text : Str) (ms : List MatchInfo) :
    (markerSpans text ms).length = ms.length := by
  induction ms with
  | nil => rfl
  | cons m rest ih => simp [markerSpans, ih]

theorem buildSubs_text_shape (c : ClauseDict) (intro text : Str) :
    ∀ (ms : List MatchInfo) (idx : Nat), ∀ sc ∈ buildSubs c intro text idx ms,
      ∃ sp ∈ markerSpans text ms, pstrip sp ≠ [] ∧
        sc.clause_text = withIntro intro (pstrip sp) := by
  intro ms
  induction ms with
  | nil => intro idx sc hsc; cases hsc
  | cons m rest ih =>
    intro idx sc hsc
    rw [buildSubs] at hsc
    by_cases he : pstrip ((text.take (spanEnd text rest)).drop (adjStart text m)) = []
    · rw [if_pos he] at hsc
      obtain ⟨sp, hmem, hne, htext⟩ := ih (idx + 1) sc hsc
      exact ⟨sp, List.mem_cons_of_mem _ hmem, hne, htext⟩
    · rw [if_neg he] at hsc
      rcases List.mem_cons.mp hsc with rfl | hm
      · exact ⟨_, List.mem_cons_self _ _, he, rfl⟩
      · obtain ⟨sp, hmem, hne, htext⟩ := ih (idx + 1) sc hm
        exact ⟨sp, List.mem_cons_of_mem _ hmem, hne, htext⟩

theorem buildSubs_eq_nil (c : ClauseDict) (intro text : Str) :
    ∀ (ms : List MatchInfo) (idx : Nat),
      (∀ sp ∈ markerSpans text ms, pstrip sp = []) →
      buildSubs c intro text idx ms = [] := by
  intro ms
  induction ms with
  | nil => intro idx _; rfl
  | cons m rest ih =>
    intro idx hall
    rw [buildSubs, if_pos (hall _ (List.mem_cons_self _ _))]
    exact ih (idx + 1) (fun sp hsp => hall sp (List.mem_cons_of_mem _ hsp))

theorem buildSubs_texts (c : ClauseDict) (intro text : Str) :
    ∀ (ms : List MatchInfo) (idx : Nat),
      (∀ sp ∈ markerSpans text ms, pstrip sp ≠ []) →
      (buildSubs c intro text idx ms).map (fun sc => sc.clause_text) =
        (markerSpans text ms).map (fun sp => withIntro intro (pstrip sp)) := by
  intro ms
  induction ms with
  | nil => intro idx _; rfl
  | cons m rest ih =>
    intro idx hall
    rw [buildSubs, if_neg (hall _ (List.mem_cons_self _ _)), markerSpans,
      List.map_cons, List.map_cons]
    congr 1
    exact ih (idx + 1) (fun sp hsp => hall sp (List.mem_cons_of_mem _ hsp))

theorem digitRun_pos {text : Str} {i : Nat} (h : 0 < digitRun text i) :
    ∃ ch, text.get? i = some ch ∧ isPyDigit ch = true := by
  rw [digitRun] at h
  cases hd : text.drop i with
  | nil => rw [hd] at h; simp at h
  | cons ch rest =>
    rw [hd, List.takeWhile_cons] at h
    by_cases hdig : isPyDigit ch = true
    · have h0 : text.get? (i + 0) = some ch := by
        rw [← List.get?_drop, hd]
        rfl
      rw [Nat.add_zero] at h0
      exact ⟨ch, h0, hdig⟩
    · rw [if_neg hdig] at h
      simp at h

theorem matchCore_spec {num text : Str} {j : Nat} {g : Str} {e : Nat}
    (h : matchCore num text j = some (g, e)) :
    ∃ d, 0 < d ∧ e = j + num.length + 1 + d + 1 ∧ e ≤ text.length ∧
      ∃ ch, text.get? (j + num.length + 1) = some ch ∧ isPyDigit ch = true := by
  simp only [matchCore] at h
  split at h
  · split at h
    · split at h
      · split at h
        · split at h
          · split at h
            · cases h
              rename_i hd x w hw hws
              obtain ⟨ch, hch, hdig⟩ := digitRun_pos hd
              refine ⟨digitRun text (j + num.length + 1), hd, rfl, ?_, ch, hch, hdig⟩
              have hlt : j + num.length + 1 + digitRun text (j + num.length + 1) <
                  text.length := (List.get?_eq_some.mp hw).1
              omega
            · cases h
          · cases h
        · cases h
      · cases h
    · cases h
  · cases h

theorem tryStops_spec {num text : Str} {q : Nat} :
    ∀ {k j : Nat} {g : Str} {e : Nat}, tryStops num text q k = some (j, g, e) →
      q ≤ j ∧ matchCore num text j = some (g, e) := by
  intro k
  induction k with
  | zero =>
    intro j g e h
    rw [tryStops] at h
    cases hm : matchCore num text q with
    | none => rw [hm] at h; cases h
    | some r =>
      obtain ⟨g', e'⟩ := r
      rw [hm] at h
      cases h
      exact ⟨Nat.le_refl q, hm⟩
  | succ k ih =>
    intro j g e h
    rw [tryStops] at h
    cases hm : matchCore num text (q + (k + 1)) with
    | none =>
      rw [hm] at h
      exact ih h
    | some r =>
      obtain ⟨g', e'⟩ := r
      rw [hm] at h
      cases h
      exact ⟨Nat.le_add_right q (k + 1), hm⟩

theorem tryMatchAt_spec {num text : Str} {p : Nat} {m : MatchInfo}
    (h : tryMatchAt num text p = some m) :
    m.mstart = p ∧ (p = 0 ∨ p + 1 ≤ m.gstart) ∧
      matchCore num text m.gstart = some (m.group, m.mend) := by
  simp only [tryMatchAt] at h
  split at h
  · rename_i hp
    split at h
    · cases h
      rename_i x g grp e heq
      exact ⟨hp.symm, Or.inl hp, (tryStops_spec heq).2⟩
    · cases h
  · rename_i hp
    split at h
    · split at h
      · split at h
        · cases h
          rename_i x g grp e heq
          exact ⟨rfl, Or.inr (tryStops_spec heq).1, (tryStops_spec heq).2⟩
        · cases h
      · cases h
    · cases h

theorem marker_digit {num text : Str} {p : Nat} {m : MatchInfo}
    (h : tryMatchAt num text p = some m) :
    ∃ di ch, text.get? di = some ch ∧ isPyDigit ch = true ∧
      m.mstart + 1 ≤ di ∧ di + 1 < m.mend ∧ m.mend ≤ text.length := by
  obtain ⟨hstart, hp, hmc⟩ := tryMatchAt_spec h
  obtain ⟨d, hd, he, hlen, ch, hch, hdig⟩ := matchCore_spec hmc
  refine ⟨m.gstart + num.length + 1, ch, hch, hdig, ?_, ?_, hlen⟩
  · rcases hp with h0 | h1 <;> omega
  · omega

theorem findIterAux_spec (num text : Str) :
    ∀ (fuel p : Nat),
      (∀ m ∈ findIterAux num text p fuel, tryMatchAt num text m.mstart = some m) ∧
      List.Chain' (fun a b => a.mend ≤ b.mstart) (findIterAux num text p fuel) ∧
      (∀ m ∈ findIterAux num text p fuel, p ≤ m.mstart) := by
  intro fuel
  induction fuel with
  | zero =>
    intro p
    refine ⟨?_, ?_, ?_⟩ <;> simp [findIterAux]
  | succ fuel ih =>
    intro p
    by_cases hp : text.length < p
    · have hnil : findIterAux num text p (fuel + 1) = [] := by
        rw [findIterAux, if_pos hp]
      rw [hnil]
      refine ⟨?_, ?_, ?_⟩ <;> simp
    · cases ht : tryMatchAt num text p with
      | none =>
        have heq : findIterAux num text p (fuel + 1) = findIterAux num text (p + 1) fuel := by
          rw [findIterAux, if_neg hp, ht]
        obtain ⟨ih1, ih2, ih3⟩ := ih (p + 1)
        rw [heq]
        exact ⟨ih1, ih2, fun m hm => Nat.le_of_succ_le (ih3 m hm)⟩
      | some m0 =>
        have heq : findIterAux num text p (fuel + 1) =
            m0 :: findIterAux num text m0.mend fuel := by
          rw [findIterAux, if_neg hp, ht]
        obtain ⟨ih1, ih2, ih3⟩ := ih m0.mend
        have hm0 : tryMatchAt num text m0.mstart = some m0 := by
          rw [(tryMatchAt_spec ht).1]
          exact ht
        have hlt : p < m0.mend := by
          obtain ⟨di, ch, _, _, hd1, hd2, _⟩ := marker_digit ht
          have := (tryMatchAt_spec ht).1
          omega
        rw [heq]
        refine ⟨?_, ?_, ?_⟩
        · intro m hm
          rcases List.mem_cons.mp hm with rfl | hm'
          · exact hm0
          · exact ih1 m hm'
        · rw [List.chain'_cons']
          exact ⟨fun b hb => ih3 b (List.mem_of_mem_head? hb), ih2⟩
        · intro m hm
          rcases List.mem_cons.mp hm with rfl | hm'
          · exact Nat.le_of_eq (tryMatchAt_spec ht).1.symm
          · exact Nat.le_trans (Nat.le_of_lt hlt) (ih3 m hm')

theorem spans_nonempty_of_invariants (num text : Str) :
    ∀ ms : List MatchInfo,
      (∀ m ∈ ms, tryMatchAt num text m.mstart = some m) →
      List.Chain' (fun a b => a.mend ≤ b.mstart) ms →
      ∀ sp ∈ markerSpans text ms, pstrip sp ≠ [] := by
  intro ms
  induction ms with
  | nil => intro _ _ sp hsp; cases hsp
  | cons m rest ih =>
    intro hall hchain sp hsp
    rw [markerSpans] at hsp
    rcases List.mem_cons.mp hsp with rfl | hm
    · obtain ⟨di, ch, hch, hdig, h1, h2, h3⟩ :=
        marker_digit (hall m (List.mem_cons_self _ _))
      have hS : adjStart text m ≤ di := by
        have hub : adjStart text m ≤ m.mstart + 1 := by
          rw [adjStart]
          split
          · split
            · exact Nat.le_refl _
            · exact Nat.le_succ _
          · exact Nat.le_succ _
        omega
      have hE : di < spanEnd text rest := by
        cases rest with
        | nil =>
          show di < text.length
          omega
        | cons m2 rest' =>
          have hmm : m.mend ≤ m2.mstart := (List.chain'_cons.mp hchain).1
          show di < m2.mstart
          omega
      have hslice : ((text.take (spanEnd text rest)).drop (adjStart text m)).get?
          (di - adjStart text m) = some ch := by
        rw [List.get?_drop, Nat.add_sub_cancel' hS, List.get?_take hE]
        exact hch
      exact pstrip_ne_nil (List.get?_mem hslice) (isPyDigit_not_space hdig)
    · exact ih (fun x hx => hall x (List.mem_cons_of_mem _ hx)) (List.Chain'.tail hchain) sp hm

theorem finditer_props (num text : Str) :
    (∀ m ∈ finditer num text, tryMatchAt num text m.mstart = some m) ∧
    List.Chain' (fun a b => a.mend ≤ b.mstart) (finditer num text) := by
  obtain ⟨ha, hb, _⟩ := findIterAux_spec num text (text.length + 1) 0
  exact ⟨ha, hb⟩

theorem finditer_spans_nonempty (num text : Str) :
    ∀ sp ∈ markerSpans text (finditer num text), pstrip sp ≠ [] :=
  spans_nonempty_of_invariants num text (finditer num text)
    (finditer_props num text).1 (finditer_props num text).2

theorem split_decomposes (c : ClauseDict)
    (h1 : ¬(c.clause_number = [] ∨ c.clause_text = []))
    (h2 : ¬((finditer c.clause_number c.clause_text).length < 2)) :
    split_into_subclauses c =
      buildSubs c (introOf c.clause_text (finditer c.clause_number c.clause_text))
        c.clause_text 0 (finditer c.clause_number c.clause_text) := by
  have hne := finditer_spans_nonempty c.clause_number c.clause_text
  have hlen : (buildSubs c (introOf c.clause_text (finditer c.clause_number c.clause_text))
      c.clause_text 0 (finditer c.clause_number c.clause_text)).length =
      (finditer c.clause_number c.clause_text).length := by
    have hmap := buildSubs_texts c
      (introOf c.clause_text (finditer c.clause_number c.clause_text))
      c.clause_text (finditer c.clause_number c.clause_text) 0 hne
    have := congrArg List.length hmap
    simpa [markerSpans_length] using this
  have hnil : buildSubs c (introOf c.clause_text (finditer c.clause_number c.clause_text))
      c.clause_text 0 (finditer c.clause_number c.clause_text) ≠ [] := by
    intro hq
    rw [hq] at hlen
    simp only [List.length_nil] at hlen
    omega
  simp only [split_into_subclauses]
  rw [if_neg h1, if_neg h2, if_neg hnil]

/-- C4: the decomposer returns the unchanged singleton `[clause]` whenever
the clause number is empty, or the text is empty, or the scan finds fewer
than 2 sub-section markers, or every candidate sub-clause span is empty
after stripping; in particular a clause numbered `"2"` whose text contains
exactly one marker `"2.1"` (see the witness) is returned unchanged. -/
theorem decomposer_returns_singleton (c : ClauseDict)
    (h : c.clause_number = [] ∨ c.clause_text = [] ∨
      (finditer c.clause_number c.clause_text).length < 2 ∨
      ∀ sp ∈ markerSpans c.clause_text (finditer c.clause_number c.clause_text),
        pstrip sp = []) :
    split_into_subclauses c = [c] := by
  simp only [split_into_subclauses]
  by_cases h1 : c.clause_number = [] ∨ c.clause_text = []
  · rw [if_pos h1]
  · rw [if_neg h1]
    by_cases h2 : (finditer c.clause_number c.clause_text).length < 2
    · rw [if_pos h2]
    · rw [if_neg h2]
      have hall : ∀ sp ∈ markerSpans c.clause_text (finditer c.clause_number c.clause_text),
          pstrip sp = [] := by tauto
      rw [buildSubs_eq_nil c (introOf c.clause_text (finditer c.clause_number c.clause_text))
        c.clause_text (finditer c.clause_number c.clause_text) 0 hall]
      simp

theorem decomposer_singleton_witness :
    (finditer sampleSingleMarker.clause_number sampleSingleMarker.clause_text).length < 2 ∧
    split_into_subclauses sampleSingleMarker = [sampleSingleMarker] :=
  ⟨by decide,
    decomposer_returns_singleton sampleSingleMarker (Or.inr (Or.inr (Or.inl (by decide))))⟩

/-- C5: when decomposition applies (non-empty number and text, at least two
markers), there is exactly one sub-clause per marker; the i-th sub-clause's
effective text is the intro-framed, stripped span of parent text running
from the i-th marker's start (skipping a single leading newline) to the next
marker's start (or the end of the text); and the sub-clause texts with the
shared intro removed, concatenated in order, reconstruct exactly the
stripped spans of the parent text between the markers. -/
theorem decomposer_spans_reconstruct (c : ClauseDict)
    (h1 : ¬(c.clause_number = [] ∨ c.clause_text = []))
    (h2 : ¬((finditer c.clause_number c.clause_text).length < 2)) :
    (split_into_subclauses c).length = (finditer c.clause_number c.clause_text).length ∧
    ((split_into_subclauses c).map (fun sc => sc.clause_text) =
      (markerSpans c.clause_text (finditer c.clause_number c.clause_text)).map
        (fun sp => withIntro (introOf c.clause_text (finditer c.clause_number c.clause_text))
          (pstrip sp))) ∧
    (((split_into_subclauses c).map (fun sc =>
        dropIntro (introOf c.clause_text (finditer c.clause_number c.clause_text))
          sc.clause_text)).flatten =
      ((markerSpans c.clause_text (finditer c.clause_number c.clause_text)).map
        pstrip).flatten) := by
  have hne := finditer_spans_nonempty c.clause_number c.clause_text
  have hmap : (split_into_subclauses c).map (fun sc => sc.clause_text) =
      (markerSpans c.clause_text (finditer c.clause_number c.clause_text)).map
        (fun sp => withIntro (introOf c.clause_text (finditer c.clause_number c.clause_text))
          (pstrip sp)) := by
    rw [split_decomposes c h1 h2]
    exact buildSubs_texts c _ c.clause_text (finditer c.clause_number c.clause_text) 0 hne
  refine ⟨?_, hmap, ?_⟩
  · have := congrArg List.length hmap
    simpa [markerSpans_length] using this
  · have h' := congrArg (List.map (fun s =>
      dropIntro (introOf c.clause_text (finditer c.clause_number c.clause_text)) s)) hmap
    rw [List.map_map, List.map_map] at h'
    have h'' : (markerSpans c.clause_text (finditer c.clause_number c.clause_text)).map
        ((fun s => dropIntro (introOf c.clause_text (finditer c.clause_number c.clause_text)) s) ∘
          (fun sp => withIntro (introOf c.clause_text (finditer c.clause_number c.clause_text))
            (pstrip sp))) =
        (markerSpans c.clause_text (finditer c.clause_number c.clause_text)).map pstrip := by
      refine List.map_congr_left (fun sp _ => ?_)
      exact dropIntro_withIntro _ _
    rw [h''] at h'
    exact congrArg List.flatten h'

theorem decomposer_spans_witness :
    ¬(sampleClause.clause_number = [] ∨ sampleClause.clause_text = []) ∧
    ¬((finditer sampleClause.clause_number sampleClause.clause_text).length < 2) ∧
    ((split_into_subclauses sampleClause).length =
      (finditer sampleClause.clause_number sampleClause.clause_text).length ∧
    ((split_into_subclauses sampleClause).map (fun sc => sc.clause_text) =
      (markerSpans sampleClause.clause_text
          (finditer sampleClause.clause_number sampleClause.clause_text)).map
        (fun sp => withIntro
          (introOf sampleClause.clause_text
            (finditer sampleClause.clause_number sampleClause.clause_text))
          (pstrip sp))) ∧
    (((split_into_subclauses sampleClause).map (fun sc =>
        dropIntro (introOf sampleClause.clause_text
            (finditer sampleClause.clause_number sampleClause.clause_text))
          sc.clause_text)).flatten =
      ((markerSpans sampleClause.clause_text
          (finditer sampleClause.clause_number sampleClause.clause_text)).map
        pstrip).flatten)) :=
  ⟨by decide, by decide,
    decomposer_spans_reconstruct sampleClause (by decide) (by decide)⟩

/-- C6: when decomposition applies, every produced sub-clause's effective
text is `intro ++ "\n\n" ++ span` when the stripped intro is non-empty and
the span alone when it is empty; in particular, whenever the intro is
non-empty every sub-clause's text starts with the intro. -/
theorem decomposer_prepends_intro (c : ClauseDict)
    (h1 : ¬(c.clause_number = [] ∨ c.clause_text = []))
    (h2 : ¬((finditer c.clause_number c.clause_text).length < 2)) :
    ∀ sc ∈ split_into_subclauses c,
      (∃ sp ∈ markerSpans c.clause_text (finditer c.clause_number c.clause_text),
        sc.clause_text = withIntro
          (introOf c.clause_text (finditer c.clause_number c.clause_text)) (pstrip sp)) ∧
      (introOf c.clause_text (finditer c.clause_number c.clause_text) ≠ [] →
        ∃ t, introOf c.clause_text (finditer c.clause_number c.clause_text) ++ t =
          sc.clause_text) := by
  intro sc hsc
  rw [split_decomposes c h1 h2] at hsc
  obtain ⟨sp, hmem, hne, htext⟩ :=
    buildSubs_text_shape c _ c.clause_text (finditer c.clause_number c.clause_text) 0 sc hsc
  refine ⟨⟨sp, hmem, htext⟩, fun hi => ⟨"\n\n".toList ++ pstrip sp, ?_⟩⟩
  rw [htext, withIntro, if_neg hi, List.append_assoc]

theorem decomposer_intro_witness :
    ¬(sampleClause.clause_number = [] ∨ sampleClause.clause_text = []) ∧
    ¬((finditer sampleClause.clause_number sampleClause.clause_text).length < 2) ∧
    ∀ sc ∈ split_into_subclauses sampleClause,
      (∃ sp ∈ markerSpans sampleClause.clause_text
          (finditer sampleClause.clause_number sampleClause.clause_text),
        sc.clause_text = withIntro
          (introOf sampleClause.clause_text
            (finditer sampleClause.clause_number sampleClause.clause_text)) (pstrip sp)) ∧
      (introOf sampleClause.clause_text
          (finditer sampleClause.clause_number sampleClause.clause_text) ≠ [] →
        ∃ t, introOf sampleClause.clause_text
            (finditer sampleClause.clause_number sampleClause.clause_text) ++ t =
          sc.clause_text) :=
  ⟨by decide, by decide, decomposer_prepends_intro sampleClause (by decide) (by decide)⟩

end LegalDoc
